import Mathlib

/-!
Formal model of the reactor core in src/src/server.hpp: byte buffer,
channel event dispatch, poller and loop iteration order, time wheel,
and socket recv/send result handling.
-/

/-- A byte buffer: backing storage (vector of char) together with the
read cursor and the write cursor. Bytes are modelled as `Nat`. -/
structure Buffer where
  data : List Nat
  readIdx : Nat
  writeIdx : Nat
deriving DecidableEq

/-- Number of readable bytes, `_write_idx - _read_idx`. -/
def Buffer.ReadableSize (b : Buffer) : Nat := b.writeIdx - b.readIdx

/-- Reclaimable space in front of the read cursor, `_read_idx`. -/
def Buffer.FrontSize (b : Buffer) : Nat := b.readIdx

/-- Free space behind the write cursor, `_buffer.size() - _write_idx`. -/
def Buffer.BackSize (b : Buffer) : Nat := b.data.length - b.writeIdx

/-- Total free space, back plus front. -/
def Buffer.WritableSize (b : Buffer) : Nat := b.BackSize + b.FrontSize

/-- Advance the read cursor; throws `out_of_range` if it would pass the
write cursor. -/
def Buffer.MoveReadIdx (b : Buffer) (len : Nat) : Except String Buffer :=
  if b.readIdx + len > b.writeIdx then Except.error "move read idx out of range"
  else Except.ok { b with readIdx := b.readIdx + len }

/-- Advance the write cursor; throws `out_of_range` if it would pass the
end of the storage. -/
def Buffer.MoveWriteIdx (b : Buffer) (len : Nat) : Except String Buffer :=
  if len > b.BackSize then Except.error "move write idx out of range"
  else Except.ok { b with writeIdx := b.writeIdx + len }

/-- `EnsureWritable len`: if the back free space suffices, do nothing;
else if back+front free space suffices, shift the readable region to
offset 0 (the tail of the storage keeps its old bytes, as `std::copy`
leaves it untouched); else grow the storage by `len` zero bytes
(`resize(size + len)`). -/
def Buffer.EnsureWritable (b : Buffer) (len : Nat) : Buffer :=
  if len > b.BackSize then
    if len > b.WritableSize then
      { b with data := b.data ++ List.replicate len 0 }
    else
      { data := (b.data.drop b.readIdx).take b.ReadableSize ++ b.data.drop b.ReadableSize,
        readIdx := 0,
        writeIdx := b.writeIdx - b.readIdx }
  else b

/-- The readable region `[_read_idx, _write_idx)` as a list of bytes. -/
def Buffer.readableBytes (b : Buffer) : List Nat :=
  (b.data.drop b.readIdx).take b.ReadableSize

/-- Offset of the first newline byte in a list, if any (the scan loop of
`FindCRLF`). -/
def Buffer.findNL : List Nat → Option Nat
  | [] => Option.none
  | c :: rest => if c = 10 then Option.some 0 else (Buffer.findNL rest).map (fun i => i + 1)

/-- `FindCRLF`: offset of the first `\n` in the readable region. -/
def Buffer.FindCRLF (b : Buffer) : Option Nat := Buffer.findNL b.readableBytes

/-- `Read(buf, len, pop)`: if `len` exceeds the readable size, silently
return nothing; else copy out `len` bytes and, when `pop`, advance the
read cursor. -/
def Buffer.Read (b : Buffer) (len : Nat) (pop : Bool) : Except String (List Nat × Buffer) :=
  if len > b.ReadableSize then Except.ok ([], b)
  else
    let out := (b.data.drop b.readIdx).take len
    if pop then
      match b.MoveReadIdx len with
      | Except.ok b2 => Except.ok (out, b2)
      | Except.error e => Except.error e
    else Except.ok (out, b)

/-- `ReadAsString(len, pop)`: if `len` exceeds the readable size, return
the empty string; else build the string and, when `pop`, advance the
read cursor. -/
def Buffer.ReadAsString (b : Buffer) (len : Nat) (pop : Bool) : Except String (List Nat × Buffer) :=
  if len > b.ReadableSize then Except.ok ([], b)
  else
    let str := (b.data.drop b.readIdx).take len
    if pop then
      match b.MoveReadIdx len with
      | Except.ok b2 => Except.ok (str, b2)
      | Except.error e => Except.error e
    else Except.ok (str, b)

/-- `ReadLine(pop)`: bytes up to and including the first `\n`, or empty if
there is none. -/
def Buffer.ReadLine (b : Buffer) (pop : Bool) : Except String (List Nat × Buffer) :=
  match b.FindCRLF with
  | Option.some i => b.ReadAsString (i + 1) pop
  | Option.none => Except.ok ([], b)

/-- Overwrite `src.length` bytes of `data` starting at position `w`
(the `std::copy` into `WritePos()`). -/
def Buffer.writeBytes (data : List Nat) (w : Nat) (src : List Nat) : List Nat :=
  data.take w ++ src ++ data.drop (w + src.length)

/-- `Write(data, len, push)`: make room, copy the bytes in at the write
cursor, and when `push` advance the write cursor. -/
def Buffer.Write (b : Buffer) (src : List Nat) (push : Bool) : Except String Buffer :=
  let b1 := b.EnsureWritable src.length
  let b2 := { b1 with data := Buffer.writeBytes b1.data b1.writeIdx src }
  if push then b2.MoveWriteIdx src.length else Except.ok b2

/-- `Clear()`: reset both cursors to 0 without shrinking the storage. -/
def Buffer.Clear (b : Buffer) : Buffer := { b with readIdx := 0, writeIdx := 0 }

/-- A freshly constructed buffer: 1024 zero bytes, both cursors 0. -/
def Buffer.fresh : Buffer := { data := List.replicate 1024 0, readIdx := 0, writeIdx := 0 }

/-- The cursor invariant `r ≤ w ≤ capacity`. -/
def Buffer.inv (b : Buffer) : Prop := b.readIdx ≤ b.writeIdx ∧ b.writeIdx ≤ b.data.length

/-- One public buffer operation. -/
inductive BufOp
  | write (src : List Nat) (push : Bool)
  | read (len : Nat) (pop : Bool)
  | readAsString (len : Nat) (pop : Bool)
  | readLine (pop : Bool)
  | clear

/-- Run one public operation, keeping the new buffer state (an exception
would propagate; we show below it cannot occur from a valid state). -/
def Buffer.applyOp (b : Buffer) (op : BufOp) : Buffer :=
  match op with
  | BufOp.write src push =>
      match b.Write src push with
      | Except.ok b2 => b2
      | Except.error _ => b
  | BufOp.read len pop =>
      match b.Read len pop with
      | Except.ok r => r.snd
      | Except.error _ => b
  | BufOp.readAsString len pop =>
      match b.ReadAsString len pop with
      | Except.ok r => r.snd
      | Except.error _ => b
  | BufOp.readLine pop =>
      match b.ReadLine pop with
      | Except.ok r => r.snd
      | Except.error _ => b
  | BufOp.clear => b.Clear

/-- Run a sequence of public operations. -/
def Buffer.applyOps (b : Buffer) (ops : List BufOp) : Buffer := ops.foldl Buffer.applyOp b

/-- Whether an `Except` value is a success. -/
def exceptOk {α : Type} : Except String α → Bool
  | Except.ok _ => true
  | Except.error _ => false

/-! Helper lemmas about lists. -/

theorem list_take_append_le {α : Type} (A B : List α) (n : Nat) (h : n ≤ A.length) :
    (A ++ B).take n = A.take n := by
  induction A generalizing n with
  | nil => simp at h; simp [h]
  | cons a as ih =>
    cases n with
    | zero => simp
    | succ m =>
      simp only [List.cons_append, List.take_succ_cons]
      rw [ih]
      simpa using h

theorem writeBytes_length (data src : List Nat) (w : Nat) (h : w + src.length ≤ data.length) :
    (Buffer.writeBytes data w src).length = data.length := by
  unfold Buffer.writeBytes
  simp only [List.length_append, List.length_take, List.length_drop]
  omega

/-! Invariant preservation for the buffer operations. -/

theorem ensureWritable_spec (b : Buffer) (len : Nat) (h : b.inv) :
    (b.EnsureWritable len).inv ∧ len ≤ (b.EnsureWritable len).BackSize := by
  obtain ⟨h1, h2⟩ := h
  unfold Buffer.EnsureWritable
  split_ifs with hb hw
  · -- grow branch
    constructor
    · exact ⟨h1, by simp only [List.length_append, List.length_replicate]; omega⟩
    · simp only [Buffer.BackSize, List.length_append, List.length_replicate]
      simp only [Buffer.BackSize] at hb
      omega
  · -- shift branch
    simp only [Buffer.BackSize, Buffer.WritableSize, Buffer.FrontSize] at hb hw
    constructor
    · constructor
      · simp
      · simp only [Buffer.inv, List.length_append, List.length_take, List.length_drop,
          Buffer.ReadableSize]
        omega
    · simp only [Buffer.BackSize, List.length_append, List.length_take, List.length_drop,
        Buffer.ReadableSize]
      omega
  · exact ⟨⟨h1, h2⟩, by simp only [Buffer.BackSize] at hb ⊢; omega⟩

theorem write_ok (b : Buffer) (src : List Nat) (push : Bool) (h : b.inv) :
    ∃ b2, b.Write src push = Except.ok b2 ∧ b2.inv := by
  obtain ⟨⟨hi1, hi2⟩, hback⟩ := ensureWritable_spec b src.length h
  set b1 := b.EnsureWritable src.length with hb1
  have hlen : (Buffer.writeBytes b1.data b1.writeIdx src).length = b1.data.length := by
    apply writeBytes_length
    simp only [Buffer.BackSize] at hback
    omega
  unfold Buffer.Write
  rw [← hb1]
  cases push with
  | false =>
    refine ⟨_, rfl, ?_, ?_⟩ <;> simp only [hlen] <;> [exact hi1; exact hi2]
  | true =>
    simp only
    unfold Buffer.MoveWriteIdx
    have : ¬ (src.length > Buffer.BackSize { b1 with data := Buffer.writeBytes b1.data b1.writeIdx src }) := by
      simp only [Buffer.BackSize, hlen]
      simp only [Buffer.BackSize] at hback
      omega
    rw [if_neg this]
    refine ⟨_, rfl, ?_, ?_⟩ <;> simp only [hlen]
    · omega
    · simp only [Buffer.BackSize] at hback; omega

theorem read_ok (b : Buffer) (len : Nat) (pop : Bool) (h : b.inv) :
    ∃ r, b.Read len pop = Except.ok r ∧ r.snd.inv := by
  obtain ⟨h1, h2⟩ := h
  unfold Buffer.Read
  by_cases hr : len > b.ReadableSize
  · rw [if_pos hr]
    exact ⟨([], b), rfl, h1, h2⟩
  · rw [if_neg hr]
    simp only [Buffer.ReadableSize] at hr
    have hcond : ¬ (b.readIdx + len > b.writeIdx) := by omega
    cases pop with
    | false =>
      refine ⟨_, rfl, ?_⟩
      exact ⟨h1, h2⟩
    | true =>
      simp only [Buffer.MoveReadIdx, if_neg hcond]
      refine ⟨_, rfl, ?_⟩
      constructor <;> simp <;> omega

theorem readAsString_ok (b : Buffer) (len : Nat) (pop : Bool) (h : b.inv) :
    ∃ r, b.ReadAsString len pop = Except.ok r ∧ r.snd.inv := by
  obtain ⟨h1, h2⟩ := h
  unfold Buffer.ReadAsString
  by_cases hr : len > b.ReadableSize
  · rw [if_pos hr]
    exact ⟨([], b), rfl, h1, h2⟩
  · rw [if_neg hr]
    simp only [Buffer.ReadableSize] at hr
    have hcond : ¬ (b.readIdx + len > b.writeIdx) := by omega
    cases pop with
    | false =>
      refine ⟨_, rfl, ?_⟩
      exact ⟨h1, h2⟩
    | true =>
      simp only [Buffer.MoveReadIdx, if_neg hcond]
      refine ⟨_, rfl, ?_⟩
      constructor <;> simp <;> omega

theorem readLine_ok (b : Buffer) (pop : Bool) (h : b.inv) :
    ∃ r, b.ReadLine pop = Except.ok r ∧ r.snd.inv := by
  unfold Buffer.ReadLine
  cases hf : b.FindCRLF with
  | none => exact ⟨([], b), rfl, h⟩
  | some i => exact readAsString_ok b (i + 1) pop h

theorem clear_inv (b : Buffer) : (b.Clear).inv := by
  constructor <;> simp [Buffer.Clear]

theorem applyOp_inv (b : Buffer) (op : BufOp) (h : b.inv) : (b.applyOp op).inv := by
  cases op with
  | write src push =>
    obtain ⟨b2, heq, hinv⟩ := write_ok b src push h
    simp [Buffer.applyOp, heq]
    exact hinv
  | read len pop =>
    obtain ⟨r, heq, hinv⟩ := read_ok b len pop h
    simp [Buffer.applyOp, heq]
    exact hinv
  | readAsString len pop =>
    obtain ⟨r, heq, hinv⟩ := readAsString_ok b len pop h
    simp [Buffer.applyOp, heq]
    exact hinv
  | readLine pop =>
    obtain ⟨r, heq, hinv⟩ := readLine_ok b pop h
    simp [Buffer.applyOp, heq]
    exact hinv
  | clear => exact clear_inv b

theorem applyOps_inv (b : Buffer) (ops : List BufOp) (h : b.inv) : (b.applyOps ops).inv := by
  induction ops generalizing b with
  | nil => exact h
  | cons op rest ih =>
    exact ih (b.applyOp op) (applyOp_inv b op h)

theorem list_take_all {α : Type} (l : List α) (n : Nat) (h : l.length ≤ n) : l.take n = l := by
  induction l generalizing n with
  | nil => simp
  | cons a as ih =>
    cases n with
    | zero => simp at h
    | succ m =>
      simp only [List.take_succ_cons, List.cons.injEq, true_and]
      exact ih m (by simpa using h)

theorem ensureWritable_zero (b : Buffer) (n : Nat) (hr : b.readIdx = 0) (hw : b.writeIdx = 0) :
    (b.EnsureWritable n).readIdx = 0 ∧ (b.EnsureWritable n).writeIdx = 0 ∧
    n ≤ (b.EnsureWritable n).data.length := by
  unfold Buffer.EnsureWritable
  split_ifs with h1 h2
  · refine ⟨hr, hw, ?_⟩
    simp only [List.length_append, List.length_replicate]
    omega
  · exfalso
    simp only [Buffer.BackSize, Buffer.WritableSize, Buffer.FrontSize, hr, hw] at h1 h2
    omega
  · simp only [Buffer.BackSize, hw] at h1
    exact ⟨hr, hw, by omega⟩

theorem write_shape_zero (b : Buffer) (B : List Nat) (hr : b.readIdx = 0) (hw : b.writeIdx = 0) :
    b.Write B true = Except.ok
      { data := B ++ (b.EnsureWritable B.length).data.drop B.length,
        readIdx := 0, writeIdx := B.length } := by
  obtain ⟨h1, h2, h3⟩ := ensureWritable_zero b B.length hr hw
  simp only [Buffer.Write]
  have hdata : Buffer.writeBytes (b.EnsureWritable B.length).data
      (b.EnsureWritable B.length).writeIdx B =
      B ++ (b.EnsureWritable B.length).data.drop B.length := by
    unfold Buffer.writeBytes
    rw [h2]
    simp
  rw [hdata]
  simp only [Buffer.MoveWriteIdx]
  have hlen : (B ++ (b.EnsureWritable B.length).data.drop B.length).length =
      (b.EnsureWritable B.length).data.length := by
    simp only [List.length_append, List.length_drop]
    omega
  have hcond : ¬ (B.length > Buffer.BackSize
      { b.EnsureWritable B.length with
        data := B ++ (b.EnsureWritable B.length).data.drop B.length }) := by
    simp only [Buffer.BackSize, hlen, h2]
    omega
  rw [if_neg hcond]
  simp only [hr, h2, Nat.zero_add]
  simp [h1]

/-- C3: a write request of `n` bytes is appended in place when `n` fits in
the back free space, compacts the readable region to offset 0 without
reallocation when `n` fits only in back plus front free space, and grows
the capacity otherwise; and any sequence of public buffer operations
preserves `r ≤ w ≤ capacity`. -/
theorem buffer_write_cases_and_cursor_invariant (b : Buffer) (n : Nat) (ops : List BufOp)
    (hinv : b.inv) :
    (n ≤ b.data.length - b.writeIdx → b.EnsureWritable n = b) ∧
    (n > b.data.length - b.writeIdx → n ≤ (b.data.length - b.writeIdx) + b.readIdx →
      (b.EnsureWritable n).readIdx = 0 ∧
      (b.EnsureWritable n).writeIdx = b.writeIdx - b.readIdx ∧
      (b.EnsureWritable n).data.length = b.data.length ∧
      (b.EnsureWritable n).readableBytes = b.readableBytes) ∧
    (n > (b.data.length - b.writeIdx) + b.readIdx →
      (b.EnsureWritable n).data.length = b.data.length + n ∧
      (b.EnsureWritable n).readIdx = b.readIdx ∧
      (b.EnsureWritable n).writeIdx = b.writeIdx) ∧
    (b.applyOps ops).inv := by
  obtain ⟨h1, h2⟩ := hinv
  refine ⟨?_, ?_, ?_, applyOps_inv b ops ⟨h1, h2⟩⟩
  · intro hfits
    unfold Buffer.EnsureWritable
    rw [if_neg]
    simp only [Buffer.BackSize]
    omega
  · intro hnofit hshift
    have hc1 : n > b.BackSize := by
      simp only [Buffer.BackSize]
      omega
    have hc2 : ¬ (n > b.WritableSize) := by
      simp only [Buffer.WritableSize, Buffer.BackSize, Buffer.FrontSize]
      omega
    unfold Buffer.EnsureWritable
    rw [if_pos hc1, if_neg hc2]
    refine ⟨rfl, rfl, ?_, ?_⟩
    · simp only [List.length_append, List.length_take, List.length_drop, Buffer.ReadableSize]
      omega
    · have hRlen : ((b.data.drop b.readIdx).take (b.writeIdx - b.readIdx)).length =
          b.writeIdx - b.readIdx := by
        simp only [List.length_take, List.length_drop]
        omega
      simp only [Buffer.readableBytes, Buffer.ReadableSize, List.drop_zero, Nat.sub_zero]
      rw [list_take_append_le _ _ _ (by rw [hRlen])]
      rw [list_take_all _ _ (by rw [hRlen])]
  · intro hgrow
    have hc1 : n > b.BackSize := by
      simp only [Buffer.BackSize]
      omega
    have hc2 : n > b.WritableSize := by
      simp only [Buffer.WritableSize, Buffer.BackSize, Buffer.FrontSize]
      omega
    unfold Buffer.EnsureWritable
    rw [if_pos hc1, if_pos hc2]
    refine ⟨?_, rfl, rfl⟩
    simp [List.length_append, List.length_replicate]

theorem buffer_write_cases_and_cursor_invariant_witness :
    (Buffer.mk [1, 2, 3, 4] 1 3).inv ∧
    ((2 ≤ ([1, 2, 3, 4] : List Nat).length - 3 →
        (Buffer.mk [1, 2, 3, 4] 1 3).EnsureWritable 2 = Buffer.mk [1, 2, 3, 4] 1 3) ∧
      (2 > ([1, 2, 3, 4] : List Nat).length - 3 →
          2 ≤ (([1, 2, 3, 4] : List Nat).length - 3) + 1 →
        ((Buffer.mk [1, 2, 3, 4] 1 3).EnsureWritable 2).readIdx = 0 ∧
        ((Buffer.mk [1, 2, 3, 4] 1 3).EnsureWritable 2).writeIdx = 3 - 1 ∧
        ((Buffer.mk [1, 2, 3, 4] 1 3).EnsureWritable 2).data.length =
          ([1, 2, 3, 4] : List Nat).length ∧
        ((Buffer.mk [1, 2, 3, 4] 1 3).EnsureWritable 2).readableBytes =
          (Buffer.mk [1, 2, 3, 4] 1 3).readableBytes) ∧
      (2 > (([1, 2, 3, 4] : List Nat).length - 3) + 1 →
        ((Buffer.mk [1, 2, 3, 4] 1 3).EnsureWritable 2).data.length =
          ([1, 2, 3, 4] : List Nat).length + 2 ∧
        ((Buffer.mk [1, 2, 3, 4] 1 3).EnsureWritable 2).readIdx = 1 ∧
        ((Buffer.mk [1, 2, 3, 4] 1 3).EnsureWritable 2).writeIdx = 3) ∧
      ((Buffer.mk [1, 2, 3, 4] 1 3).applyOps [BufOp.write [7] true, BufOp.clear]).inv) :=
  ⟨⟨by decide, by decide⟩,
    buffer_write_cases_and_cursor_invariant (Buffer.mk [1, 2, 3, 4] 1 3) 2
      [BufOp.write [7] true, BufOp.clear] ⟨by decide, by decide⟩⟩

/-- C8: writing a byte sequence `B` into a fresh buffer and then peeking
`n ≤ |B|` bytes yields exactly the first `n` bytes of `B`; writing `B` and
then consuming `|B|` bytes leaves a readable size of 0. -/
theorem buffer_write_peek_consume_roundtrip (B : List Nat) (n : Nat) (hn : n ≤ B.length) :
    ∃ b1, Buffer.fresh.Write B true = Except.ok b1 ∧
      b1.Read n false = Except.ok (B.take n, b1) ∧
      ∃ b2, b1.Read B.length true = Except.ok (B, b2) ∧ b2.ReadableSize = 0 := by
  rw [write_shape_zero Buffer.fresh B rfl rfl]
  set rest := (Buffer.fresh.EnsureWritable B.length).data.drop B.length with hrest
  refine ⟨_, rfl, ?_, ?_⟩
  · unfold Buffer.Read
    have hcond : ¬ (n > Buffer.ReadableSize
        { data := B ++ rest, readIdx := 0, writeIdx := B.length }) := by
      simp [Buffer.ReadableSize]
      omega
    rw [if_neg hcond]
    simp [list_take_append_le _ _ _ hn]
  · have hcond : ¬ (B.length > Buffer.ReadableSize
        { data := B ++ rest, readIdx := 0, writeIdx := B.length }) := by
      simp [Buffer.ReadableSize]
    have hmv : ¬ (Buffer.readIdx { data := B ++ rest, readIdx := 0, writeIdx := B.length }
        + B.length > Buffer.writeIdx { data := B ++ rest, readIdx := 0, writeIdx := B.length }) := by
      simp
    refine ⟨{ data := B ++ rest, readIdx := 0 + B.length, writeIdx := B.length }, ?_, ?_⟩
    · unfold Buffer.Read Buffer.MoveReadIdx
      rw [if_neg hcond, if_neg hmv]
      simp [list_take_append_le B rest B.length (Nat.le_refl _),
        list_take_all B B.length (Nat.le_refl _)]
    · simp [Buffer.ReadableSize]

theorem buffer_write_peek_consume_roundtrip_witness :
    (2 ≤ ([11, 22, 33] : List Nat).length) ∧
    (∃ b1, Buffer.fresh.Write [11, 22, 33] true = Except.ok b1 ∧
      b1.Read 2 false = Except.ok (([11, 22, 33] : List Nat).take 2, b1) ∧
      ∃ b2, b1.Read ([11, 22, 33] : List Nat).length true = Except.ok ([11, 22, 33], b2) ∧
        b2.ReadableSize = 0) :=
  ⟨by decide, buffer_write_peek_consume_roundtrip [11, 22, 33] 2 (by decide)⟩

/-- C9: from any buffer state satisfying the cursor invariant, the public
operations `Read`, `ReadAsString`, `ReadLine` and `Write` never reach the
out-of-range exceptions of `MoveReadIdx` and `MoveWriteIdx`. -/
theorem buffer_public_ops_no_exception (b : Buffer) (len : Nat) (pop push : Bool)
    (src : List Nat) (hinv : b.inv) :
    exceptOk (b.Read len pop) = true ∧
    exceptOk (b.ReadAsString len pop) = true ∧
    exceptOk (b.ReadLine pop) = true ∧
    exceptOk (b.Write src push) = true := by
  obtain ⟨r1, e1, _⟩ := read_ok b len pop hinv
  obtain ⟨r2, e2, _⟩ := readAsString_ok b len pop hinv
  obtain ⟨r3, e3, _⟩ := readLine_ok b pop hinv
  obtain ⟨b2, e4, _⟩ := write_ok b src push hinv
  rw [e1, e2, e3, e4]
  exact ⟨rfl, rfl, rfl, rfl⟩

theorem buffer_public_ops_no_exception_witness :
    (Buffer.mk [9, 10, 9] 0 3).inv ∧
    (exceptOk ((Buffer.mk [9, 10, 9] 0 3).Read 2 true) = true ∧
      exceptOk ((Buffer.mk [9, 10, 9] 0 3).ReadAsString 2 true) = true ∧
      exceptOk ((Buffer.mk [9, 10, 9] 0 3).ReadLine true) = true ∧
      exceptOk ((Buffer.mk [9, 10, 9] 0 3).Write [5, 6] true) = true) :=
  ⟨⟨by decide, by decide⟩,
    buffer_public_ops_no_exception (Buffer.mk [9, 10, 9] 0 3) 2 true true [5, 6]
      ⟨by decide, by decide⟩⟩

/-! Channel event dispatch. -/

/-- Epoll event bit for readable data. -/
def EPOLLIN : Nat := 1

/-- Epoll event bit for urgent data. -/
def EPOLLPRI : Nat := 2

/-- Epoll event bit for writable. -/
def EPOLLOUT : Nat := 4

/-- Epoll event bit for an error condition. -/
def EPOLLERR : Nat := 8

/-- Epoll event bit for hangup. -/
def EPOLLHUP : Nat := 16

/-- Epoll event bit for peer shutdown of the read half. -/
def EPOLLRDHUP : Nat := 8192

/-- Whether a bit is set in a mask (`revents & BIT`). -/
def hasBit (revents bit : Nat) : Bool := (revents &&& bit) != 0

/-- One of the five callbacks a channel can carry. -/
inductive CB
  | event
  | read
  | write
  | error
  | close
deriving DecidableEq

/-- Which of the five callbacks are installed on the channel. -/
structure Callbacks where
  hasEvent : Bool
  hasRead : Bool
  hasWrite : Bool
  hasError : Bool
  hasClose : Bool

/-- A channel with all five callbacks installed. -/
def allCallbacks : Callbacks :=
  { hasEvent := true, hasRead := true, hasWrite := true, hasError := true, hasClose := true }

/-- `Channel::HandleEvent`: the list of callbacks invoked, in invocation
order, for a given revents mask: the any-event hook, then the read
callback on EPOLLIN or EPOLLPRI or EPOLLRDHUP, then the error callback on
EPOLLERR, else the write callback on EPOLLOUT, else the close callback on
EPOLLHUP. -/
def Channel.HandleEvent (revents : Nat) (cbs : Callbacks) : List CB :=
  (if cbs.hasEvent then [CB.event] else []) ++
  ((if hasBit revents EPOLLIN || hasBit revents EPOLLPRI || hasBit revents EPOLLRDHUP then
      (if cbs.hasRead then [CB.read] else [])
    else []) ++
   (if hasBit revents EPOLLERR then
      (if cbs.hasError then [CB.error] else [])
    else if hasBit revents EPOLLOUT then
      (if cbs.hasWrite then [CB.write] else [])
    else if hasBit revents EPOLLHUP then
      (if cbs.hasClose then [CB.close] else [])
    else []))

/-- C1: with all callbacks installed, `HandleEvent` invokes the any-event
hook first; the read callback iff one of EPOLLIN, EPOLLPRI, EPOLLRDHUP is
set; and at most one of error, write, close, chosen with priority error
over write over hangup, each appearing iff its condition holds; the whole
list is exactly the event hook, then the optional read, then the optional
single terminal callback. -/
theorem channel_handleEvent_dispatch_order (revents : Nat) :
    (Channel.HandleEvent revents allCallbacks).head? = Option.some CB.event ∧
    (CB.read ∈ Channel.HandleEvent revents allCallbacks ↔
      (hasBit revents EPOLLIN || hasBit revents EPOLLPRI || hasBit revents EPOLLRDHUP) = true) ∧
    (CB.error ∈ Channel.HandleEvent revents allCallbacks ↔ hasBit revents EPOLLERR = true) ∧
    (CB.write ∈ Channel.HandleEvent revents allCallbacks ↔
      (hasBit revents EPOLLERR = false ∧ hasBit revents EPOLLOUT = true)) ∧
    (CB.close ∈ Channel.HandleEvent revents allCallbacks ↔
      (hasBit revents EPOLLERR = false ∧ hasBit revents EPOLLOUT = false ∧
        hasBit revents EPOLLHUP = true)) ∧
    ((Channel.HandleEvent revents allCallbacks).filter
      (fun c => c == CB.error || c == CB.write || c == CB.close)).length ≤ 1 ∧
    Channel.HandleEvent revents allCallbacks =
      [CB.event] ++
      (if (hasBit revents EPOLLIN || hasBit revents EPOLLPRI || hasBit revents EPOLLRDHUP) = true
        then [CB.read] else []) ++
      (if hasBit revents EPOLLERR = true then [CB.error]
        else if hasBit revents EPOLLOUT = true then [CB.write]
        else if hasBit revents EPOLLHUP = true then [CB.close]
        else []) := by
  cases h1 : hasBit revents EPOLLIN <;>
    cases h2 : hasBit revents EPOLLPRI <;>
      cases h3 : hasBit revents EPOLLRDHUP <;>
        cases h4 : hasBit revents EPOLLERR <;>
          cases h5 : hasBit revents EPOLLOUT <;>
            cases h6 : hasBit revents EPOLLHUP <;>
              simp [Channel.HandleEvent, allCallbacks, h1, h2, h3, h4, h5, h6]

/-! Time wheel. -/

/-- The wheel has `_wheelSize = 60` buckets, one per second. -/
def wheelSize : Nat := 60

/-- A timer task: id, timeout in ticks, and the canceled flag. -/
structure TimerTask where
  id : Nat
  timeout : Nat
  canceled : Bool

/-- The destructor of a task runs its action unless the task was
canceled. -/
def TimerTask.dtorRunsAction (t : TimerTask) : Bool := !t.canceled

/-- The wheel state: the cursor `_tick` and the 60 buckets, each a list of
the ids of the tasks whose strong references sit in it. -/
structure WheelState where
  tick : Nat
  wheel : List (List Nat)

/-- `TimerWheel::_addTask`: place the strong reference in bucket
`(_tick + timeout) % _wheelSize`. -/
def WheelState.addTask (s : WheelState) (id timeout : Nat) : WheelState :=
  let idx := (s.tick + timeout) % wheelSize
  { s with wheel := s.wheel.set idx ((s.wheel.getD idx []) ++ [id]) }

/-- `TimerWheel::Tick`: advance the cursor by `(t + 1) % W` and clear the
bucket at the new cursor; returns the new state and the ids destroyed by
the clear (their destructors run now). -/
def WheelState.Tick (s : WheelState) : WheelState × List Nat :=
  ({ tick := (s.tick + 1) % wheelSize,
     wheel := s.wheel.set ((s.tick + 1) % wheelSize) [] },
   s.wheel.getD ((s.tick + 1) % wheelSize) [])

/-- The wheel state after `k` ticks. -/
def WheelState.afterTicks (s : WheelState) : Nat → WheelState
  | 0 => s
  | k + 1 => (s.afterTicks k).Tick.fst

/-- The ids destroyed by the `k`-th tick (`k ≥ 1`). -/
def WheelState.firedAt (s : WheelState) (k : Nat) : List Nat :=
  match k with
  | 0 => []
  | k + 1 => (s.afterTicks k).Tick.snd

/-- A wheel with cursor `c` and all 60 buckets empty. -/
def emptyWheel (c : Nat) : WheelState :=
  { tick := c, wheel := List.replicate wheelSize [] }

/-! Helper lemmas about getD over set and replicate. -/

theorem getD_set {α : Type} (l : List α) (i j : Nat) (x d : α) :
    (l.set i x).getD j d = if i = j ∧ j < l.length then x else l.getD j d := by
  induction l generalizing i j with
  | nil => simp
  | cons a as ih =>
    cases i with
    | zero =>
      cases j with
      | zero => simp
      | succ m => simp [List.getD]
    | succ n =>
      cases j with
      | zero => simp [List.getD]
      | succ m =>
        simp only [List.set_cons_succ, List.getD_cons_succ, ih, List.length_cons]
        by_cases h : n = m ∧ m < as.length
        · rw [if_pos h, if_pos ⟨by omega, by omega⟩]
        · rw [if_neg h, if_neg (by omega)]

theorem getD_replicate {α : Type} (n i : Nat) (a d : α) :
    (List.replicate n a).getD i d = if i < n then a else d := by
  induction n generalizing i with
  | zero => simp
  | succ m ih =>
    cases i with
    | zero => simp [List.replicate]
    | succ j =>
      simp only [List.replicate, List.getD_cons_succ, ih]
      by_cases h : j < m
      · rw [if_pos h, if_pos (by omega)]
      · rw [if_neg h, if_neg (by omega)]

theorem tick_mod_ne (c d k : Nat) (hk1 : 1 ≤ k) (hkd : k < d) (hd : d ≤ wheelSize) :
    (c + k) % wheelSize ≠ (c + d) % wheelSize := by
  simp only [wheelSize] at hd ⊢
  omega

theorem addTask_wheel (c d id : Nat) :
    ((emptyWheel c).addTask id d).wheel =
      (List.replicate wheelSize ([] : List Nat)).set ((c + d) % wheelSize) [id] ∧
    ((emptyWheel c).addTask id d).tick = c := by
  constructor
  · simp [WheelState.addTask, emptyWheel, getD_replicate]
  · rfl

theorem wheel_state_before (c d id : Nat) (hc : c < wheelSize) (hd2 : d ≤ wheelSize) :
    ∀ k, k < d →
      (((emptyWheel c).addTask id d).afterTicks k).tick = (c + k) % wheelSize ∧
      (((emptyWheel c).addTask id d).afterTicks k).wheel.length = wheelSize ∧
      (∀ q, (((emptyWheel c).addTask id d).afterTicks k).wheel.getD q [] =
        if q = (c + d) % wheelSize then [id] else []) := by
  obtain ⟨hw0, ht0⟩ := addTask_wheel c d id
  intro k
  induction k with
  | zero =>
    intro hk
    refine ⟨?_, ?_, ?_⟩
    · show ((emptyWheel c).addTask id d).tick = (c + 0) % wheelSize
      rw [ht0]
      simp only [wheelSize, Nat.add_zero] at hc ⊢
      omega
    · show ((emptyWheel c).addTask id d).wheel.length = wheelSize
      rw [hw0, List.length_set, List.length_replicate]
    · intro q
      show ((emptyWheel c).addTask id d).wheel.getD q [] = _
      rw [hw0, getD_set, getD_replicate, List.length_replicate]
      have hplt : (c + d) % wheelSize < wheelSize := Nat.mod_lt _ (by simp [wheelSize])
      by_cases hqp : q = (c + d) % wheelSize
      · subst hqp
        rw [if_pos ⟨rfl, hplt⟩, if_pos rfl]
      · rw [if_neg (fun hcon => hqp hcon.1.symm), if_neg hqp, ite_self]
  | succ k ih =>
    intro hk
    obtain ⟨ht, hlen, hq⟩ := ih (by omega)
    have htick : ((((emptyWheel c).addTask id d).afterTicks k).tick + 1) % wheelSize =
        (c + (k + 1)) % wheelSize := by
      rw [ht]
      simp only [wheelSize]
      omega
    have hne : (c + (k + 1)) % wheelSize ≠ (c + d) % wheelSize :=
      tick_mod_ne c d (k + 1) (by omega) (by omega) hd2
    have hunf : ((emptyWheel c).addTask id d).afterTicks (k + 1) =
        (((emptyWheel c).addTask id d).afterTicks k).Tick.fst := rfl
    rw [hunf]
    simp only [WheelState.Tick]
    refine ⟨htick, ?_, ?_⟩
    · rw [List.length_set]
      exact hlen
    · intro q
      rw [getD_set, hq q, htick, hlen]
      by_cases hqp : q = (c + d) % wheelSize
      · subst hqp
        rw [if_neg (fun hcon => hne hcon.1)]
      · rw [if_neg hqp, ite_self]

theorem wheel_fired_at_d (c d id : Nat) (hc : c < wheelSize) (hd1 : 1 ≤ d)
    (hd2 : d ≤ wheelSize) :
    ((emptyWheel c).addTask id d).firedAt d = [id] ∧
    (((emptyWheel c).addTask id d).afterTicks d).tick = (c + d) % wheelSize ∧
    (∀ q, (((emptyWheel c).addTask id d).afterTicks d).wheel.getD q [] = []) ∧
    (((emptyWheel c).addTask id d).afterTicks d).wheel.length = wheelSize := by
  obtain ⟨e, he⟩ : ∃ e, d = e + 1 := ⟨d - 1, by omega⟩
  subst he
  obtain ⟨ht, hlen, hq⟩ := wheel_state_before c (e + 1) id hc hd2 e (by omega)
  have htick : ((((emptyWheel c).addTask id (e + 1)).afterTicks e).tick + 1) % wheelSize =
      (c + (e + 1)) % wheelSize := by
    rw [ht]
    simp only [wheelSize]
    omega
  have hplt : (c + (e + 1)) % wheelSize < wheelSize := Nat.mod_lt _ (by simp [wheelSize])
  refine ⟨?_, ?_, ?_, ?_⟩
  · show (((emptyWheel c).addTask id (e + 1)).afterTicks e).Tick.snd = [id]
    simp only [WheelState.Tick]
    rw [htick, hq]
    rw [if_pos rfl]
  · show (((emptyWheel c).addTask id (e + 1)).afterTicks e).Tick.fst.tick = _
    simp only [WheelState.Tick]
    exact htick
  · intro q
    show (((emptyWheel c).addTask id (e + 1)).afterTicks e).Tick.fst.wheel.getD q [] = []
    simp only [WheelState.Tick]
    rw [getD_set, hq q, htick, hlen]
    by_cases hqp : q = (c + (e + 1)) % wheelSize
    · subst hqp
      rw [if_pos ⟨rfl, hplt⟩]
    · rw [if_neg (fun hcon => hqp hcon.1.symm), if_neg hqp]
  · show (((emptyWheel c).addTask id (e + 1)).afterTicks e).Tick.fst.wheel.length = wheelSize
    simp only [WheelState.Tick]
    rw [List.length_set]
    exact hlen

theorem wheel_not_fired_before (c d id k : Nat) (hc : c < wheelSize) (hd2 : d ≤ wheelSize)
    (hk1 : 1 ≤ k) (hkd : k < d) :
    ((emptyWheel c).addTask id d).firedAt k = [] := by
  obtain ⟨e, he⟩ : ∃ e, k = e + 1 := ⟨k - 1, by omega⟩
  subst he
  obtain ⟨ht, hlen, hq⟩ := wheel_state_before c d id hc hd2 e (by omega)
  show (((emptyWheel c).addTask id d).afterTicks e).Tick.snd = []
  simp only [WheelState.Tick]
  have htick : ((((emptyWheel c).addTask id d).afterTicks e).tick + 1) % wheelSize =
      (c + (e + 1)) % wheelSize := by
    rw [ht]
    simp only [wheelSize]
    omega
  rw [htick, hq]
  rw [if_neg (tick_mod_ne c d (e + 1) (by omega) hkd hd2)]

theorem allEmpty_tick (s : WheelState) (h : ∀ q, s.wheel.getD q [] = []) :
    (∀ q, s.Tick.fst.wheel.getD q [] = []) ∧ s.Tick.snd = [] := by
  constructor
  · intro q
    simp only [WheelState.Tick]
    rw [getD_set, h q]
    exact ite_self []
  · simp only [WheelState.Tick]
    exact h _

theorem afterTicks_add (s : WheelState) (m n : Nat) :
    s.afterTicks (m + n) = (s.afterTicks m).afterTicks n := by
  induction n with
  | zero => rfl
  | succ j ih =>
    show (s.afterTicks (m + j)).Tick.fst = _
    rw [ih]
    rfl

theorem wheel_not_fired_after (c d id k : Nat) (hc : c < wheelSize) (hd1 : 1 ≤ d)
    (hd2 : d ≤ wheelSize) (hdk : d < k) :
    ((emptyWheel c).addTask id d).firedAt k = [] := by
  obtain ⟨hfi, htk, hempty, hlen⟩ := wheel_fired_at_d c d id hc hd1 hd2
  obtain ⟨j, hj⟩ : ∃ j, k = d + j + 1 := ⟨k - d - 1, by omega⟩
  subst hj
  show (((emptyWheel c).addTask id d).afterTicks (d + j)).Tick.snd = []
  rw [afterTicks_add]
  have hall : ∀ j2, ∀ q,
      ((((emptyWheel c).addTask id d).afterTicks d).afterTicks j2).wheel.getD q [] = [] := by
    intro j2
    induction j2 with
    | zero => exact hempty
    | succ m ih => exact (allEmpty_tick _ ih).1
  exact (allEmpty_tick _ (hall j)).2

theorem wheel_fire_iff (c d id k : Nat) (hc : c < wheelSize) (hd1 : 1 ≤ d)
    (hd2 : d ≤ wheelSize) (hk : 1 ≤ k) :
    (id ∈ ((emptyWheel c).addTask id d).firedAt k ↔ k = d) := by
  constructor
  · intro hmem
    by_contra hne
    rcases Nat.lt_or_ge k d with hlt | hge
    · rw [wheel_not_fired_before c d id k hc hd2 hk hlt] at hmem
      simp at hmem
    · have hdk : d < k := by omega
      rw [wheel_not_fired_after c d id k hc hd1 hd2 hdk] at hmem
      simp at hmem
  · intro h
    subst h
    rw [(wheel_fired_at_d c k id hc (by omega) (by omega)).1]
    simp

/-- C2: a task added with timeout `d` while the cursor is at `c` sits in
bucket `(c + d) % W`; the cursor reaches exactly that bucket after `d`
ticks of `t ← (t + 1) % W`; the task is destroyed by the `k`-th tick iff
`k = d` (so `d = 1` fires at the next tick and `d = W - 1` one tick before
the cursor wraps to `c`); and an uncanceled task's destructor runs its
action. -/
theorem timer_task_bucket_and_fire (c d id k : Nat) (hc : c < wheelSize)
    (hd1 : 1 ≤ d) (hd2 : d < wheelSize) (hk : 1 ≤ k) :
    ((emptyWheel c).addTask id d).wheel.getD ((c + d) % wheelSize) [] = [id] ∧
    (((emptyWheel c).addTask id d).afterTicks d).tick = (c + d) % wheelSize ∧
    (id ∈ ((emptyWheel c).addTask id d).firedAt k ↔ k = d) ∧
    TimerTask.dtorRunsAction { id := id, timeout := d, canceled := false } = true := by
  obtain ⟨ht0, hlen0, hq0⟩ := wheel_state_before c d id hc (by omega) 0 (by omega)
  refine ⟨?_, ?_, ?_, rfl⟩
  · have := hq0 ((c + d) % wheelSize)
    rw [if_pos rfl] at this
    exact this
  · exact (wheel_fired_at_d c d id hc hd1 (by omega)).2.1
  · exact wheel_fire_iff c d id k hc hd1 (by omega) hk

theorem timer_task_bucket_and_fire_witness :
    (3 < wheelSize ∧ 1 ≤ 59 ∧ 59 < wheelSize ∧ 1 ≤ 59) ∧
    (((emptyWheel 3).addTask 7 59).wheel.getD ((3 + 59) % wheelSize) [] = [7] ∧
      (((emptyWheel 3).addTask 7 59).afterTicks 59).tick = (3 + 59) % wheelSize ∧
      (7 ∈ ((emptyWheel 3).addTask 7 59).firedAt 59 ↔ 59 = 59) ∧
      TimerTask.dtorRunsAction { id := 7, timeout := 59, canceled := false } = true) :=
  ⟨⟨by decide, by decide, by decide, by decide⟩,
    timer_task_bucket_and_fire 3 59 7 59 (by decide) (by decide) (by decide) (by decide)⟩

/-- C6: `_addTask` performs no runtime check, so the contract `1 ≤ d < W`
is what makes timeouts meaningful: every in-contract timeout `d` fires at
exactly the `d`-th tick (hence the largest representable delay is
`W - 1 = 59` seconds), while `d = 0` does not fire immediately: it aliases
to a full wrap and fires only at tick `W`, which is why the contract
rejects it. -/
theorem timer_addTask_timeout_contract (c id d k : Nat) (hc : c < wheelSize)
    (hd1 : 1 ≤ d) (hd2 : d < wheelSize) (hk : 1 ≤ k) :
    (id ∈ ((emptyWheel c).addTask id 0).firedAt k ↔ k = wheelSize) ∧
    (id ∈ ((emptyWheel c).addTask id d).firedAt k ↔ k = d) := by
  constructor
  · have h0 : (emptyWheel c).addTask id 0 = (emptyWheel c).addTask id wheelSize := by
      simp [WheelState.addTask, emptyWheel, Nat.add_mod_right]
    rw [h0]
    exact wheel_fire_iff c wheelSize id k hc (by decide) (Nat.le_refl _) hk
  · exact wheel_fire_iff c d id k hc hd1 (by omega) hk

theorem timer_addTask_timeout_contract_witness :
    (2 < wheelSize ∧ 1 ≤ 1 ∧ 1 < wheelSize ∧ 1 ≤ 1) ∧
    ((9 ∈ ((emptyWheel 2).addTask 9 0).firedAt 1 ↔ 1 = wheelSize) ∧
      (9 ∈ ((emptyWheel 2).addTask 9 1).firedAt 1 ↔ 1 = 1)) :=
  ⟨⟨by decide, by decide, by decide, by decide⟩,
    timer_addTask_timeout_contract 2 9 1 1 (by decide) (by decide) (by decide) (by decide)⟩

/-! Event loop iteration. -/

/-- One observable action of a loop iteration: dispatching a ready channel
or running a queued cross-thread task. -/
inductive LoopAct
  | dispatch (ch : Nat)
  | task (t : Nat)
deriving DecidableEq

/-- Whether an action is an event dispatch. -/
def LoopAct.isDispatch : LoopAct → Bool
  | LoopAct.dispatch _ => true
  | LoopAct.task _ => false

/-- Whether an action is a queued-task run. -/
def LoopAct.isTask : LoopAct → Bool
  | LoopAct.dispatch _ => false
  | LoopAct.task _ => true

/-- `EventLoop::RunPendingTasks`: swap the pending queue into a local one
and run every task; the pending queue is left empty. -/
def RunPendingTasks (pending : List Nat) : List LoopAct × List Nat :=
  (pending.map LoopAct.task, [])

/-- `EventLoop::Start`: poll (yielding the ready channels `active`), handle
every ready channel in order, then drain the pending task queue. Returns
the ordered action trace of the iteration and the queue left behind. -/
def EventLoop.Start (active : List Nat) (pending : List Nat) : List LoopAct × List Nat :=
  let handled := active.map LoopAct.dispatch
  let run := RunPendingTasks pending
  (handled ++ run.fst, run.snd)

theorem getD_forall {α : Type} (l : List α) (i : Nat) (d : α) (P : α → Prop)
    (hl : ∀ x ∈ l, P x) (hd : P d) : P (l.getD i d) := by
  induction l generalizing i with
  | nil => exact hd
  | cons a as ih =>
    cases i with
    | zero => exact hl a (by simp)
    | succ m =>
      simp only [List.getD_cons_succ]
      exact ih m (fun x hx => hl x (by simp [hx]))

theorem getD_append_right_len {α : Type} (A B : List α) (i : Nat) (d : α)
    (h : A.length ≤ i) : (A ++ B).getD i d = B.getD (i - A.length) d := by
  induction A generalizing i with
  | nil => simp
  | cons a as ih =>
    cases i with
    | zero => simp at h
    | succ m =>
      simp only [List.cons_append, List.getD_cons_succ, List.length_cons]
      rw [ih m (by simpa using h)]
      congr 1
      omega

theorem getD_append_left_len {α : Type} (A B : List α) (i : Nat) (d : α)
    (h : i < A.length) : (A ++ B).getD i d = A.getD i d := by
  induction A generalizing i with
  | nil => simp at h
  | cons a as ih =>
    cases i with
    | zero => simp
    | succ m =>
      simp only [List.cons_append, List.getD_cons_succ]
      exact ih m (by simpa using h)

/-- C5: in one iteration of `EventLoop::Start`, every ready channel is
dispatched before any queued task runs: a dispatch action at trace
position `i` always precedes a task action at position `j`, and the
pending queue is fully drained by the iteration. -/
theorem eventLoop_start_events_before_tasks (active pending : List Nat) (i j : Nat)
    (hdi : ((EventLoop.Start active pending).fst.getD i (LoopAct.task 0)).isDispatch = true)
    (htj : ((EventLoop.Start active pending).fst.getD j (LoopAct.dispatch 0)).isTask = true) :
    i < j ∧ (EventLoop.Start active pending).snd = [] := by
  have htrace : (EventLoop.Start active pending).fst =
      active.map LoopAct.dispatch ++ pending.map LoopAct.task := rfl
  constructor
  · by_cases hi : i < (active.map LoopAct.dispatch).length
    · by_cases hj : j < (active.map LoopAct.dispatch).length
      · exfalso
        rw [htrace, getD_append_left_len _ _ _ _ hj] at htj
        have : ∀ x ∈ active.map LoopAct.dispatch, LoopAct.isTask x = false := by
          intro x hx
          obtain ⟨ch, _, hch⟩ := List.mem_map.mp hx
          rw [← hch]
          rfl
        have hfalse := getD_forall (active.map LoopAct.dispatch) j (LoopAct.dispatch 0)
          (fun x => LoopAct.isTask x = false) this rfl
        simp only at hfalse
        rw [htj] at hfalse
        exact Bool.true_eq_false.mp hfalse
      · have : (active.map LoopAct.dispatch).length ≤ j := by omega
        omega
    · exfalso
      have hge : (active.map LoopAct.dispatch).length ≤ i := by omega
      rw [htrace, getD_append_right_len _ _ _ _ hge] at hdi
      have : ∀ x ∈ pending.map LoopAct.task, LoopAct.isDispatch x = false := by
        intro x hx
        obtain ⟨t, _, ht⟩ := List.mem_map.mp hx
        rw [← ht]
        rfl
      have hfalse := getD_forall (pending.map LoopAct.task)
        (i - (active.map LoopAct.dispatch).length) (LoopAct.task 0)
        (fun x => LoopAct.isDispatch x = false) this rfl
      simp only at hfalse
      rw [hdi] at hfalse
      exact Bool.true_eq_false.mp hfalse
  · rfl

theorem eventLoop_start_events_before_tasks_witness :
    ((((EventLoop.Start [4, 5] [8]).fst.getD 0 (LoopAct.task 0)).isDispatch = true) ∧
      (((EventLoop.Start [4, 5] [8]).fst.getD 2 (LoopAct.dispatch 0)).isTask = true)) ∧
    (0 < 2 ∧ (EventLoop.Start [4, 5] [8]).snd = []) :=
  ⟨⟨by decide, by decide⟩,
    eventLoop_start_events_before_tasks [4, 5] [8] 0 2 (by decide) (by decide)⟩

/-! Closing of file descriptors. -/

/-- `Socket::Close`: emit a `close` syscall only when the stored fd is not
`-1`, and mark the socket closed; returns the close trace and the new
stored fd. -/
def Socket.Close (sockfd : Int) : List Int × Int :=
  if sockfd = -1 then ([], sockfd) else ([sockfd], -1)

/-- The close trace of `Socket::~Socket`, which calls `Close()`. -/
def Socket.dtorCloses (sockfd : Int) : List Int := (Socket.Close sockfd).fst

/-- The close trace of `Channel::~Channel`, which unconditionally calls
`close(_fd)`. -/
def Channel.dtorCloses (fd : Int) : List Int := [fd]

/-- Destroying a `Connection` runs the destructors of its `_channel` and
its `_sock` members, both wrapping the same fd; the combined close trace. -/
def Connection.dtorCloses (fd : Int) : List Int :=
  Channel.dtorCloses fd ++ Socket.dtorCloses fd

/-- C4 is false on the code: `Channel::~Channel` does close the fd it
wraps, so destroying a Connection (whose Socket wraps the same open fd)
closes that fd twice, not exactly once. -/
theorem channel_dtor_double_close :
    Channel.dtorCloses 5 = [5] ∧
    Connection.dtorCloses 5 = [5, 5] ∧
    (Connection.dtorCloses 5).length ≠ 1 := by
  refine ⟨rfl, by decide, by decide⟩

/-! Short reads on the eventfd and the timerfd, and socket recv/send. -/

/-- The errno cases the code distinguishes after a failed or short call. -/
inductive Errno
  | eagain
  | eintr
  | other
deriving DecidableEq

/-- Outcome of reading the eventfd or the timerfd. -/
inductive ReadOutcome
  | ok
  | ignored
  | fatalError
deriving DecidableEq

/-- `EventLoop::ReadEventfd`: read 8 bytes from the eventfd; on a short
read (`n != sizeof(res)`), return silently when errno is EAGAIN or EINTR,
otherwise log Fatal and throw. -/
def EventLoop.ReadEventfd (n : Int) (e : Errno) : ReadOutcome :=
  if n ≠ 8 then
    if e = Errno.eagain ∨ e = Errno.eintr then ReadOutcome.ignored
    else ReadOutcome.fatalError
  else ReadOutcome.ok

/-- `TimerWheel::OnTime`: read 8 bytes from the timerfd; on a short read,
return silently when errno is EAGAIN or EINTR, otherwise log Fatal and
throw; on a full read, advance the wheel by one tick. -/
def TimerWheel.OnTime (n : Int) (e : Errno) (s : WheelState) : ReadOutcome × WheelState :=
  if n ≠ 8 then
    if e = Errno.eagain ∨ e = Errno.eintr then (ReadOutcome.ignored, s)
    else (ReadOutcome.fatalError, s)
  else (ReadOutcome.ok, s.Tick.fst)

/-- C7 counterexample: a short read from the eventfd or the timerfd with
errno EAGAIN is silently ignored, not treated as fatal, so it is not the
case that every short read logs and aborts. -/
theorem short_read_eagain_not_fatal :
    EventLoop.ReadEventfd (-1) Errno.eagain = ReadOutcome.ignored ∧
    EventLoop.ReadEventfd (-1) Errno.eagain ≠ ReadOutcome.fatalError ∧
    (TimerWheel.OnTime (-1) Errno.eagain (emptyWheel 0)).fst = ReadOutcome.ignored ∧
    (TimerWheel.OnTime (-1) Errno.eagain (emptyWheel 0)).fst ≠ ReadOutcome.fatalError := by
  refine ⟨rfl, by decide, rfl, by decide⟩

/-- C7 amended: a short read (`n ≠ 8`) from the self-wake eventfd or the
timer fd is fatal (log and raise) exactly when errno is neither EAGAIN nor
EINTR; with errno EAGAIN or EINTR the short read is silently ignored and
the loop continues. -/
theorem short_read_fatal_unless_transient (n : Int) (e : Errno) (s : WheelState)
    (h : n ≠ 8) :
    (EventLoop.ReadEventfd n e = ReadOutcome.fatalError ↔ e = Errno.other) ∧
    ((TimerWheel.OnTime n e s).fst = ReadOutcome.fatalError ↔ e = Errno.other) ∧
    ((e = Errno.eagain ∨ e = Errno.eintr) →
      EventLoop.ReadEventfd n e = ReadOutcome.ignored ∧
      (TimerWheel.OnTime n e s).fst = ReadOutcome.ignored ∧
      (TimerWheel.OnTime n e s).snd = s) := by
  unfold EventLoop.ReadEventfd TimerWheel.OnTime
  rw [if_pos h, if_pos h]
  cases e with
  | eagain => exact ⟨by simp, by simp, fun _ => ⟨rfl, rfl, rfl⟩⟩
  | eintr => exact ⟨by simp, by simp, fun _ => ⟨rfl, rfl, rfl⟩⟩
  | other =>
    refine ⟨by simp, by simp, fun hcon => ?_⟩
    rcases hcon with hcon | hcon <;> exact absurd hcon (by simp)

theorem short_read_fatal_unless_transient_witness :
    ((0 : Int) ≠ 8) ∧
    ((EventLoop.ReadEventfd 0 Errno.other = ReadOutcome.fatalError ↔ Errno.other = Errno.other) ∧
      ((TimerWheel.OnTime 0 Errno.other (emptyWheel 1)).fst = ReadOutcome.fatalError ↔
        Errno.other = Errno.other) ∧
      ((Errno.other = Errno.eagain ∨ Errno.other = Errno.eintr) →
        EventLoop.ReadEventfd 0 Errno.other = ReadOutcome.ignored ∧
        (TimerWheel.OnTime 0 Errno.other (emptyWheel 1)).fst = ReadOutcome.ignored ∧
        (TimerWheel.OnTime 0 Errno.other (emptyWheel 1)).snd = emptyWheel 1)) :=
  ⟨by decide, short_read_fatal_unless_transient 0 Errno.other (emptyWheel 1) (by decide)⟩

/-- `Socket::Recv`: on `recv` returning -1, return 0 when errno is EAGAIN
or EINTR, else log and return the -1 unchanged; any non-negative return
value passes through. -/
def Socket.Recv (ret : Int) (e : Errno) : Int :=
  if ret = -1 then
    if e = Errno.eagain ∨ e = Errno.eintr then 0 else ret
  else ret

/-- `Socket::Send`: same failure handling as `Recv`. -/
def Socket.Send (ret : Int) (e : Errno) : Int :=
  if ret = -1 then
    if e = Errno.eagain ∨ e = Errno.eintr then 0 else ret
  else ret

/-- C10: `Recv` and `Send` return 0 (not a negative error) when the
underlying call fails with EAGAIN or EINTR, and an orderly peer close
(`recv` returning 0) also yields 0, so a caller cannot tell the two cases
apart from the return value alone. -/
theorem socket_recv_send_transient_zero (e : Errno) :
    Socket.Recv (-1) Errno.eagain = 0 ∧
    Socket.Recv (-1) Errno.eintr = 0 ∧
    Socket.Send (-1) Errno.eagain = 0 ∧
    Socket.Send (-1) Errno.eintr = 0 ∧
    Socket.Recv 0 e = 0 ∧
    Socket.Recv 0 e = Socket.Recv (-1) Errno.eagain := by
  cases e <;> exact ⟨by decide, by decide, by decide, by decide, by decide, by decide⟩
